import Mathlib

/-!
Verification development for the local semantic vector store of the
ai-due-diligence-system repository (`src/modules/legal_indexer.py`).

The store (`LegalIndexer`) keeps a FAISS flat inner-product index and a
parallel metadata list, persisted to two companion files.  The embedding
pipeline (`EmbeddingModel`) mean-pools transformer hidden states under the
attention mask and L2-normalizes each row.

Modelling choices:
- float32 arithmetic of the index layer is modelled over `ℚ` so that scores,
  sorting and equality are computable;
- the normalization claim needs a Euclidean norm, so the embedding pipeline
  is modelled over `ℝ`;
- the external tokenizer/transformer call (`self._model(**enc)`) is an
  abstract parameter returning, for each text of a batch, the per-token
  hidden states together with the attention-mask values;
- a Python exception raised by an embedding call is modelled by the embedder
  returning `none`; the store method then returns the unchanged state paired
  with an `Except.error`, mirroring the fact that the source mutates
  `self.index` / `self.metadata` only after the embedding call has returned.
-/

namespace LegalIndexer

/-- One row of the flat index (`faiss.IndexFlatIP`): a vector of scalars,
modelled as rationals standing for float32. -/
def Vec : Type := List ℚ

instance : DecidableEq Vec := inferInstanceAs (DecidableEq (List ℚ))

/-- A metadata record (a `chunk` dict): the required `text` field that gets
embedded, plus free-form extra string fields (`act_name`, `section_id`, ...). -/
structure Chunk where
  text : String
  fields : List (String × String)
deriving DecidableEq

/-- A search hit: a fresh copy of the matched metadata record with the
`score` field added (`c = dict(self.metadata[i]); c["score"] = float(s)`). -/
structure Hit where
  passage : Chunk
  score : ℚ
deriving DecidableEq

/-- In-memory state of a `LegalIndexer`: the index rows in insertion order
(`self.index`) and the parallel metadata list (`self.metadata`). -/
structure IndexerState where
  rows : List Vec
  metadata : List Chunk
deriving DecidableEq

/-- The two companion files on disk (`legal_index.faiss` /
`legal_metadata.pkl`); `none` means the file does not exist. -/
structure Files where
  idxFile : Option (List Vec)
  metaFile : Option (List Chunk)
deriving DecidableEq

/-- `_new_index`: a fresh empty flat index and empty metadata list. -/
def new_index : IndexerState := { rows := [], metadata := [] }

/-- `_load_or_init`: if both persisted files exist, `_load_index` reads both
back verbatim (the source performs no consistency check between
`index.ntotal` and `len(metadata)`); otherwise `_new_index`. -/
def load_or_init (fs : Files) : IndexerState :=
  match fs.idxFile, fs.metaFile with
  | some r, some m => { rows := r, metadata := m }
  | _, _ => new_index

/-- `save_index`: overwrite both files with the current rows and metadata. -/
def save_index (st : IndexerState) : Files :=
  { idxFile := some st.rows, metaFile := some st.metadata }

/-- `clear_index`: `_new_index()` then remove both files (removing an absent
file is skipped, hence a no-op). -/
def clear_index (_st : IndexerState) (_fs : Files) : IndexerState × Files :=
  (new_index, { idxFile := none, metaFile := none })

/-- An embedder that embeds each text independently, as
`EmbeddingModel.embed` does (one vector per input text, in order), and
never fails. -/
def pointwiseE (e : String → Vec) : List String → Option (List Vec) :=
  fun ts => some (ts.map e)

/-- `add_chunks`: empty input returns 0; otherwise embed every chunk's
`text` (an exception there, modelled by `none`, leaves the state unchanged
because the source mutates only afterwards); append the embedding rows to
the index and the chunks to the metadata in the same step, returning
`len(chunks)`. -/
def add_chunks (E : List String → Option (List Vec)) (st : IndexerState)
    (chunks : List Chunk) : IndexerState × Except String ℕ :=
  if chunks.isEmpty then (st, .ok 0)
  else
    match E (chunks.map Chunk.text) with
    | none => (st, .error "embedding failed")
    | some emb =>
      if emb.isEmpty then (st, .ok 0)
      else ({ rows := st.rows ++ emb, metadata := st.metadata ++ chunks },
            .ok chunks.length)

/-- Inner-product score of the query vector against one stored row, which is
what `faiss.IndexFlatIP` computes for every row of the flat index. -/
def ip (q r : Vec) : ℚ := (List.zipWith (· * ·) q r).sum

/-- The order in which the flat index hands back its top-k `(score, id)`
pairs: descending score; the tie order between equal scores is
implementation-defined in faiss, fixed here as ascending row id. -/
def rankLE (a b : ℚ × ℕ) : Prop := b.1 < a.1 ∨ (a.1 = b.1 ∧ a.2 ≤ b.2)

instance : DecidableRel rankLE := fun a b =>
  inferInstanceAs (Decidable (b.1 < a.1 ∨ (a.1 = b.1 ∧ a.2 ≤ b.2)))

instance : IsTotal (ℚ × ℕ) rankLE := by
  constructor
  intro a b
  rcases lt_trichotomy a.1 b.1 with h | h | h
  · exact Or.inr (Or.inl h)
  · rcases Nat.le_total a.2 b.2 with h2 | h2
    · exact Or.inl (Or.inr ⟨h, h2⟩)
    · exact Or.inr (Or.inr ⟨h.symm, h2⟩)
  · exact Or.inl (Or.inl h)

instance : IsTrans (ℚ × ℕ) rankLE := by
  constructor
  intro a b c hab hbc
  rcases hab with h1 | ⟨h1, h1'⟩
  · rcases hbc with h2 | ⟨h2, _⟩
    · exact Or.inl (h2.trans h1)
    · exact Or.inl (h2 ▸ h1)
  · rcases hbc with h2 | ⟨h2, h2'⟩
    · exact Or.inl (h1 ▸ h2)
    · exact Or.inr ⟨h1.trans h2, h1'.trans h2'⟩

/-- `self.index.search(q, k)` on a flat inner-product index: score every
stored row, rank them descending, return the first `k` `(score, id)` pairs.
For `k ≤ ntotal` a flat index always finds `k` rows, so no `-1` placeholder
ids occur (the source's `if i == -1: continue` filter never fires after the
clamp). -/
def index_search (rows : List Vec) (q : Vec) (k : ℕ) : List (ℚ × ℕ) :=
  (List.insertionSort rankLE
    ((List.range rows.length).map (fun i => (ip q (rows.getD i []), i)))).take k

/-- Lines 126-136 of `search`: clamp `k` to `ntotal`, run the index search
with the query vector, and build one fresh hit per returned row. -/
def search_core (st : IndexerState) (q : Vec) (k : ℕ) : List Hit :=
  (index_search st.rows q (min k st.rows.length)).map
    (fun p => { passage := st.metadata.getD p.2 ⟨"", []⟩, score := p.1 })

/-- `search`: an empty index returns `[]` before anything else happens (in
particular before the query is embedded); otherwise embed the query
(`embed_single` = `embed([query])[0]`, an exception there propagates) and
run the core search. -/
def search (E : List String → Option (List Vec)) (st : IndexerState)
    (query : String) (k : ℕ) : Except String (List Hit) :=
  if st.rows.length = 0 then .ok []
  else
    match E [query] with
    | none => .error "embedding failed"
    | some qs => .ok (search_core st (qs.getD 0 []) k)

/-- The `search` method as a transformer of `self`: its body only reads
`self.index` and `self.metadata` (builds fresh dicts for the hits), so the
post state is the input state. -/
def search_call (E : List String → Option (List Vec)) (st : IndexerState)
    (query : String) (k : ℕ) : IndexerState × Except String (List Hit) :=
  (st, search E st query k)

/-- The `vector_count` property: `self.index.ntotal`. -/
def vector_count (st : IndexerState) : ℕ := st.rows.length

/-- A sequence of `add_chunks` calls, each against the state the previous
call left behind. -/
def run_adds (e : String → Vec) (st : IndexerState)
    (batches : List (List Chunk)) : IndexerState :=
  batches.foldl (fun s b => (add_chunks (pointwiseE e) s b).1) st

/-- The pairing invariant: the index rows are exactly the embeddings of the
metadata texts, position by position (this implies
`ntotal = len(metadata)`). -/
def Paired (e : String → Vec) (st : IndexerState) : Prop :=
  st.rows = st.metadata.map (fun c => e c.text)

instance (e : String → Vec) (st : IndexerState) : Decidable (Paired e st) :=
  inferInstanceAs (Decidable (st.rows = _))

end LegalIndexer

namespace EmbeddingModel

/-- `DIMENSION`: output dimension of BAAI/bge-small-en-v1.5. -/
def DIMENSION : ℕ := 384

/-- One embedding vector produced by the pipeline (one output row). -/
def EVec : Type := Fin DIMENSION → ℝ

/-- What the external tokenizer + transformer return for one text of a
batch: for every token position, the final hidden-state vector paired with
its attention-mask value (0.0 on padding positions). -/
def TokenData : Type := List (EVec × ℝ)

/-- `_pool`: attention-mask-weighted mean of the token hidden states,
componentwise `(hidden * mask).sum(1) / mask.sum(1).clamp(min=1e-9)`. -/
noncomputable def pool (td : TokenData) : EVec := fun i =>
  (td.map (fun p => p.1 i * p.2)).sum / max ((td.map Prod.snd).sum) (1e-9 : ℝ)

/-- Euclidean norm of an embedding vector. -/
noncomputable def rnorm (v : EVec) : ℝ := Real.sqrt (∑ i, v i ^ 2)

/-- The `eps` of `torch.nn.functional.normalize` (default 1e-12). -/
def normEps : ℝ := 1e-12

/-- `torch.nn.functional.normalize(emb, p=2, dim=1)` on one row:
divide by the clamped Euclidean norm. -/
noncomputable def l2normalize (v : EVec) : EVec :=
  fun i => v i / max (rnorm v) normEps

/-- Lines 69-70 applied to one row of a batch: pool the token hidden states,
then L2-normalize (both operations act row-wise). -/
noncomputable def embed_row (td : TokenData) : EVec := l2normalize (pool td)

/-- The batch split `for i in range(0, len(texts), batch_size)`:
consecutive slices of length `batch_size` (degenerate step 0 yields
nothing; the source would reject it inside `range`). -/
def mkBatches {α : Type} (bs : ℕ) (l : List α) : List (List α) :=
  if _h : bs = 0 ∨ l.length = 0 then []
  else
    l.take bs :: mkBatches bs (l.drop bs)
termination_by l.length
decreasing_by
  push_neg at _h
  obtain ⟨h1, h2⟩ := _h
  simp only [List.length_drop]
  exact Nat.sub_lt (Nat.pos_of_ne_zero h2) (Nat.pos_of_ne_zero h1)

/-- `embed`: run each batch through the external encoder `enc` (one token
listing per batch element), pool and normalize every row, and stack the
per-batch outputs in order (`np.vstack`); empty input returns the empty
array. -/
noncomputable def embed (enc : List String → List TokenData)
    (texts : List String) (bs : ℕ) : List EVec :=
  ((mkBatches bs texts).map (fun b => (enc b).map embed_row)).flatten

/-- `embed_single`: `self.embed([text])[0]`, with the default batch
size 32. -/
noncomputable def embed_single (enc : List String → List TokenData)
    (t : String) : EVec :=
  (embed enc [t] 32).getD 0 (fun _ => 0)

/-- A sample token listing: a single token with all-ones hidden state and
attention-mask value 1. -/
noncomputable def oneToken : TokenData := [(fun _ => (1 : ℝ), 1)]

/-- A sample external encoder that returns `oneToken` for every text. -/
noncomputable def constEnc : List String → List TokenData :=
  fun b => b.map (fun _ => oneToken)

theorem mkBatches_flatten {α : Type} (bs : ℕ) (hbs : 0 < bs) :
    ∀ l : List α, (mkBatches bs l).flatten = l := by
  intro l
  induction l using EmbeddingModel.mkBatches.induct bs with
  | case1 l h =>
    rcases h with h | h
    · omega
    · rw [mkBatches, dif_pos (Or.inr h)]
      simp [List.length_eq_zero.mp h]
  | case2 l h ih =>
    rw [mkBatches, dif_neg h]
    simp only [List.flatten_cons, ih]
    exact List.take_append_drop bs l

/-- When the external encoder acts on each batch element independently
(`enc b = b.map f` for a per-text encoding `f`), batching is invisible:
`embed` is the per-text map. -/
theorem embed_pointwise (f : String → TokenData)
    (enc : List String → List TokenData) (henc : ∀ b, enc b = b.map f)
    (texts : List String) (bs : ℕ) (hbs : 0 < bs) :
    embed enc texts bs = texts.map (fun t => embed_row (f t)) := by
  unfold embed
  have h1 : ∀ b : List String, (enc b).map embed_row =
      b.map (fun t => embed_row (f t)) := by
    intro b
    rw [henc b, List.map_map]
    rfl
  calc ((mkBatches bs texts).map (fun b => (enc b).map embed_row)).flatten
      = ((mkBatches bs texts).map
          (List.map (fun t => embed_row (f t)))).flatten := by
        congr 1
        exact List.map_congr_left (fun b _ => h1 b)
    _ = ((mkBatches bs texts).flatten).map (fun t => embed_row (f t)) := by
        rw [List.map_flatten]
    _ = texts.map (fun t => embed_row (f t)) := by
        rw [mkBatches_flatten bs hbs]

theorem rnorm_nonneg (v : EVec) : 0 ≤ rnorm v := Real.sqrt_nonneg _

/-- Normalizing a vector whose norm is at least the clamp `eps` yields a
vector of Euclidean norm exactly one. -/
theorem rnorm_l2normalize (v : EVec) (h : normEps ≤ rnorm v) :
    rnorm (l2normalize v) = 1 := by
  have hpos : 0 < rnorm v :=
    lt_of_lt_of_le (by norm_num [normEps]) h
  have hflat : max (rnorm v) normEps = rnorm v := max_eq_left h
  have hsum : (rnorm v) ^ 2 = ∑ i, v i ^ 2 :=
    Real.sq_sqrt (Finset.sum_nonneg fun i _ => sq_nonneg _)
  show Real.sqrt (∑ i, l2normalize v i ^ 2) = 1
  have hcomp : ∀ i : Fin DIMENSION, l2normalize v i ^ 2 =
      v i ^ 2 / (rnorm v) ^ 2 := by
    intro i
    unfold l2normalize
    rw [hflat, div_pow]
  calc Real.sqrt (∑ i, l2normalize v i ^ 2)
      = Real.sqrt (∑ i, v i ^ 2 / (rnorm v) ^ 2) :=
        congrArg Real.sqrt (Finset.sum_congr rfl fun i _ => hcomp i)
    _ = Real.sqrt ((∑ i, v i ^ 2) / (rnorm v) ^ 2) := by
        rw [Finset.sum_div]
    _ = Real.sqrt 1 := by
        rw [← hsum, div_self (pow_ne_zero 2 hpos.ne')]
    _ = 1 := Real.sqrt_one

theorem pool_oneToken : pool oneToken = fun _ => (1 : ℝ) := by
  funext i
  unfold pool oneToken
  simp only [List.map_cons, List.map_nil, List.sum_cons, List.sum_nil]
  rw [show max ((1 : ℝ) + 0) 1e-9 = 1 from by
    rw [add_zero]; exact max_eq_left (by norm_num)]
  norm_num

theorem rnorm_ones : rnorm (fun _ => (1 : ℝ)) = Real.sqrt 384 := by
  unfold rnorm
  have h : (∑ _i : Fin DIMENSION, ((1 : ℝ)) ^ 2) = 384 := by
    rw [Finset.sum_const, Finset.card_univ, Fintype.card_fin]
    norm_num [DIMENSION]
  rw [h]

theorem normEps_le_rnorm_pool_oneToken : normEps ≤ rnorm (pool oneToken) := by
  rw [pool_oneToken, rnorm_ones]
  have h2 : (1 : ℝ) ≤ Real.sqrt 384 := by
    rw [← Real.sqrt_one]
    exact Real.sqrt_le_sqrt (by norm_num)
  exact le_trans (by norm_num [normEps]) h2

/-- Every vector `embed` returns is the pooled-and-normalized row of one
token listing the external encoder produced for one batch. -/
theorem mem_embed (enc : List String → List TokenData)
    (texts : List String) (bs : ℕ) (v : EVec)
    (hv : v ∈ embed enc texts bs) :
    ∃ b td, b ∈ mkBatches bs texts ∧ td ∈ enc b ∧ v = embed_row td := by
  unfold embed at hv
  rw [List.mem_flatten] at hv
  obtain ⟨l, hl, hvl⟩ := hv
  rw [List.mem_map] at hl
  obtain ⟨b, hb, rfl⟩ := hl
  rw [List.mem_map] at hvl
  obtain ⟨td, htd, rfl⟩ := hvl
  exact ⟨b, td, hb, htd, rfl⟩

end EmbeddingModel

namespace LegalIndexer

/-- With the pointwise embedder, `add_chunks` always succeeds and appends
one index row per record (the embedding of its text, in input order) and
the records themselves to the metadata, returning the record count. -/
theorem add_chunks_pointwise (e : String → Vec) (st : IndexerState)
    (chunks : List Chunk) :
    add_chunks (pointwiseE e) st chunks =
      ({ rows := st.rows ++ chunks.map (fun c => e c.text),
         metadata := st.metadata ++ chunks }, .ok chunks.length) := by
  cases chunks with
  | nil => simp [add_chunks, pointwiseE]
  | cons c cs => simp [add_chunks, pointwiseE]

theorem paired_add (e : String → Vec) (st : IndexerState)
    (chunks : List Chunk) (h : Paired e st) :
    Paired e (add_chunks (pointwiseE e) st chunks).1 := by
  rw [add_chunks_pointwise]
  unfold Paired at h ⊢
  simp only [List.map_append, h]

theorem paired_run_adds (e : String → Vec) (batches : List (List Chunk)) :
    ∀ st : IndexerState, Paired e st → Paired e (run_adds e st batches) := by
  induction batches with
  | nil => intro st h; exact h
  | cons b bs ih =>
    intro st h
    exact ih _ (paired_add e st b h)

/-- Loading right after saving restores the state verbatim. -/
theorem load_save (st : IndexerState) :
    load_or_init (save_index st) = st := rfl

theorem length_index_search (rows : List Vec) (q : Vec) (k : ℕ) :
    (index_search rows q k).length = min k rows.length := by
  unfold index_search
  rw [List.length_take, (List.perm_insertionSort rankLE _).length_eq,
    List.length_map, List.length_range]

theorem sorted_index_search (rows : List Vec) (q : Vec) (k : ℕ) :
    List.Sorted rankLE (index_search rows q k) :=
  List.Pairwise.sublist (List.take_sublist _ _)
    (List.sorted_insertionSort rankLE _)

theorem mem_index_search (rows : List Vec) (q : Vec) (k : ℕ) (p : ℚ × ℕ)
    (hp : p ∈ index_search rows q k) :
    p.2 < rows.length ∧ p.1 = ip q (rows.getD p.2 []) := by
  unfold index_search at hp
  have h1 := (List.take_sublist _ _).subset hp
  have h2 := ((List.perm_insertionSort rankLE _).mem_iff).mp h1
  rw [List.mem_map] at h2
  obtain ⟨i, hi, rfl⟩ := h2
  rw [List.mem_range] at hi
  exact ⟨hi, rfl⟩

end LegalIndexer

open EmbeddingModel LegalIndexer

/-- C1, counterexample: with both persisted files present but mutually
inconsistent (one index row, zero metadata records), `_load_or_init` still
hydrates the desynchronized pair from disk and signals no error, so
construction does not refuse to hydrate on a row-count/metadata-length
mismatch. -/
theorem C1_counterexample :
    load_or_init { idxFile := some [[1]], metaFile := some [] } =
      { rows := [[1]], metadata := [] } ∧
    (load_or_init
        { idxFile := some [[1]], metaFile := some [] }).rows.length ≠
      (load_or_init
        { idxFile := some [[1]], metaFile := some [] }).metadata.length :=
  ⟨rfl, by decide⟩

/-- C1, amended: when both persisted files exist, construction hydrates
from disk unconditionally — no consistency check between index row count
and metadata length is performed, and a mismatched pair is loaded as-is
without any error; when either file is missing, an empty index is
initialized. -/
theorem C1_amended :
    (∀ r m, load_or_init { idxFile := some r, metaFile := some m } =
      { rows := r, metadata := m }) ∧
    (∀ m, load_or_init { idxFile := none, metaFile := m } = new_index) ∧
    (∀ r, load_or_init { idxFile := r, metaFile := none } = new_index) := by
  refine ⟨fun r m => rfl, fun m => rfl, fun r => ?_⟩
  cases r <;> rfl

/-- C2: starting from the empty store, after any sequence of `add_chunks`
calls the index rows are exactly the embeddings of the metadata texts,
position by position (hence `ntotal = len(metadata)`), and one `add_chunks`
call, `clear_index`, and a save/load cycle each preserve this pairing. -/
theorem C2_pairing (e : String → Vec) :
    (∀ batches, Paired e (run_adds e new_index batches)) ∧
    (∀ st chunks, Paired e st →
      Paired e (add_chunks (pointwiseE e) st chunks).1) ∧
    (∀ st fs, Paired e (clear_index st fs).1) ∧
    (∀ st, Paired e st → Paired e (load_or_init (save_index st))) :=
  ⟨fun batches => paired_run_adds e batches new_index rfl,
   fun st chunks h => paired_add e st chunks h,
   fun _ _ => rfl,
   fun st h => by rw [load_save]; exact h⟩

/-- Witness for C2: the pairing invariant holds concretely after adding one
record to the empty store. -/
theorem C2_pairing_witness :
    Paired (fun _ => ([1] : Vec)) new_index ∧
    Paired (fun _ => ([1] : Vec))
      (add_chunks (pointwiseE (fun _ => ([1] : Vec))) new_index
        [⟨"t", []⟩]).1 :=
  ⟨by decide,
   (C2_pairing (fun _ => ([1] : Vec))).2.1 new_index [⟨"t", []⟩] (by decide)⟩

/-- C3: `add_chunks` is all-or-nothing — empty input is a no-op returning
0; if the embedding call for the batch fails, neither the index nor the
metadata is touched (the call reports an error on the unchanged state); on
success it appends exactly one index row and one metadata record per input
record, in input order, and returns the count added. -/
theorem C3_all_or_nothing (E : List String → Option (List Vec))
    (e : String → Vec) (st : IndexerState) (chunks : List Chunk) :
    add_chunks E st [] = (st, .ok 0) ∧
    (chunks ≠ [] → E (chunks.map Chunk.text) = none →
      add_chunks E st chunks = (st, .error "embedding failed")) ∧
    add_chunks (pointwiseE e) st chunks =
      ({ rows := st.rows ++ chunks.map (fun c => e c.text),
         metadata := st.metadata ++ chunks }, .ok chunks.length) := by
  refine ⟨by simp [add_chunks], ?_, add_chunks_pointwise e st chunks⟩
  intro hne hE
  unfold add_chunks
  rw [if_neg (by simpa using hne), hE]

/-- Witness for C3: a failing embedding call leaves a concrete store
unchanged and commits no rows. -/
theorem C3_all_or_nothing_witness :
    ([(⟨"t", []⟩ : Chunk)] ≠ []) ∧
    add_chunks (fun _ => none) new_index [⟨"t", []⟩] =
      (new_index, .error "embedding failed") :=
  ⟨List.cons_ne_nil _ _,
   (C3_all_or_nothing (fun _ => none) (fun _ => ([] : Vec)) new_index
    [⟨"t", []⟩]).2.1 (List.cons_ne_nil _ _) rfl⟩

/-- C4: the embedding pipeline produces vectors with exactly
`DIMENSION = 384` components, and — whenever the pooled vector's norm
reaches the `1e-12` normalization clamp, as any non-degenerate encoder
output does — the produced vector's Euclidean norm is exactly 1, in
particular within `1e-5` of 1; this covers the rows `embed` emits and the
vector `embed_single` returns. -/
theorem C4_unit_norm (td : TokenData) (h : normEps ≤ rnorm (pool td)) :
    DIMENSION = 384 ∧
    rnorm (embed_row td) = 1 ∧ |rnorm (embed_row td) - 1| ≤ 1e-5 ∧
    (∀ enc texts bs v, v ∈ embed enc texts bs →
      (∀ b td2, td2 ∈ enc b → normEps ≤ rnorm (pool td2)) →
      rnorm v = 1 ∧ |rnorm v - 1| ≤ 1e-5) ∧
    (∀ enc t, enc [t] = [td] →
      rnorm (embed_single enc t) = 1 ∧
      |rnorm (embed_single enc t) - 1| ≤ 1e-5) := by
  have habs : ∀ x : ℝ, x = 1 → |x - 1| ≤ 1e-5 := by
    intro x hx
    rw [hx]
    norm_num
  have h1 : rnorm (embed_row td) = 1 := rnorm_l2normalize _ h
  refine ⟨rfl, h1, habs _ h1, ?_, ?_⟩
  · intro enc texts bs v hv henc
    obtain ⟨b, td2, hb, htd2, rfl⟩ := mem_embed enc texts bs v hv
    have hn := rnorm_l2normalize _ (henc b td2 htd2)
    exact ⟨hn, habs _ hn⟩
  · intro enc t henc
    have h0 : mkBatches 32 ([] : List String) = [] := by
      rw [mkBatches]
      simp
    have hb1 : mkBatches 32 [t] = [[t]] := by
      rw [mkBatches]
      simp [h0]
    have hemb : embed enc [t] 32 = [embed_row td] := by
      unfold embed
      rw [hb1]
      simp [henc]
    have hsingle : embed_single enc t = embed_row td := by
      unfold embed_single
      rw [hemb]
      rfl
    rw [hsingle]
    exact ⟨h1, habs _ h1⟩

/-- Witness for C4: the all-ones single-token encoding has pooled norm
`sqrt 384`, which clears the `1e-12` clamp, and its embedded row has
Euclidean norm exactly 1. -/
theorem C4_unit_norm_witness :
    normEps ≤ rnorm (pool oneToken) ∧ rnorm (embed_row oneToken) = 1 :=
  ⟨normEps_le_rnorm_pool_oneToken,
   (C4_unit_norm oneToken normEps_le_rnorm_pool_oneToken).2.1⟩

/-- C5: persistence round-trip — for any store state reached by
`add_chunks` calls from the empty store, saving and then constructing a
second store against the same files restores the state verbatim, so every
subsequent `search` answers identically (same records, same ranking order,
same scores). -/
theorem C5_roundtrip (e : String → Vec) (E : List String → Option (List Vec))
    (batches : List (List Chunk)) (q : String) (k : ℕ) :
    load_or_init (save_index (run_adds e new_index batches)) =
      run_adds e new_index batches ∧
    search E (load_or_init (save_index (run_adds e new_index batches))) q k =
      search E (run_adds e new_index batches) q k :=
  ⟨load_save _, by rw [load_save]⟩

/-- C6: `search` on a store with zero rows returns the empty hit list for
every query and every `k`, and never errors — the empty-index early return
fires before the query is even embedded, so not even a failing embedder can
raise. -/
theorem C6_empty_search (E : List String → Option (List Vec))
    (md : List Chunk) (q : String) (k : ℕ) :
    search E { rows := [], metadata := md } q k = .ok [] := rfl

/-- C7: every successful `search` returns exactly `min k ntotal` hits — in
particular at most `min k ntotal`, with `k` exceeding the row count clamped
to the row count — and the hits are ordered by descending score. -/
theorem C7_clamp_sorted (E : List String → Option (List Vec))
    (st : IndexerState) (q : String) (k : ℕ) (hits : List Hit)
    (h : search E st q k = .ok hits) :
    hits.length ≤ min k st.rows.length ∧
    hits.length = min k st.rows.length ∧
    List.Sorted (fun a b : Hit => b.score ≤ a.score) hits := by
  have key : hits.length = min k st.rows.length ∧
      List.Sorted (fun a b : Hit => b.score ≤ a.score) hits := by
    unfold search at h
    by_cases h0 : st.rows.length = 0
    · rw [if_pos h0] at h
      injection h with h2
      subst h2
      simp [h0]
    · rw [if_neg h0] at h
      cases hE : E [q] with
      | none =>
        rw [hE] at h
        exact absurd h (by simp)
      | some qs =>
        rw [hE] at h
        injection h with h2
        subst h2
        constructor
        · unfold search_core
          rw [List.length_map, length_index_search]
          omega
        · unfold search_core
          refine List.Pairwise.map _ ?_ (sorted_index_search _ _ _)
          intro a b hab
          rcases hab with hlt | ⟨heq, _⟩
          · exact le_of_lt hlt
          · exact le_of_eq heq.symm
  exact ⟨le_of_eq key.1, key.1, key.2⟩

/-- Witness for C7: a concrete one-row store queried with `k = 3` returns
exactly `min 3 1 = 1` hit, sorted. -/
theorem C7_clamp_sorted_witness :
    search (pointwiseE (fun _ => ([1] : Vec)))
      { rows := [[1]], metadata := [⟨"t", []⟩] } "x" 3 =
      .ok [{ passage := ⟨"t", []⟩, score := 1 }] ∧
    ([{ passage := ⟨"t", []⟩, score := (1 : ℚ) }] : List Hit).length =
      min 3 ({ rows := [[1]], metadata := [⟨"t", []⟩] } :
        IndexerState).rows.length ∧
    List.Sorted (fun a b : Hit => b.score ≤ a.score)
      [{ passage := (⟨"t", []⟩ : Chunk), score := (1 : ℚ) }] := by
  have hs : search (pointwiseE (fun _ => ([1] : Vec)))
      { rows := [[1]], metadata := [⟨"t", []⟩] } "x" 3 =
      .ok [{ passage := ⟨"t", []⟩, score := 1 }] := by
    unfold search search_core index_search ip pointwiseE
    norm_num [List.insertionSort, List.orderedInsert]
  have hc := C7_clamp_sorted _ _ _ _ _ hs
  exact ⟨hs, hc.2.1, hc.2.2⟩

/-- C8: `clear_index` resets the in-memory index and metadata to empty and
removes both persisted files; repeating it is harmless (idempotent), the
row count afterwards is 0, and a subsequent `search` returns the empty hit
list without error. -/
theorem C8_clear_idempotent (st : IndexerState) (fs : Files)
    (E : List String → Option (List Vec)) (q : String) (k : ℕ) :
    clear_index st fs = (new_index, { idxFile := none, metaFile := none }) ∧
    clear_index (clear_index st fs).1 (clear_index st fs).2 =
      clear_index st fs ∧
    vector_count (clear_index st fs).1 = 0 ∧
    (clear_index st fs).2.idxFile = none ∧
    (clear_index st fs).2.metaFile = none ∧
    search E (clear_index st fs).1 q k = .ok [] :=
  ⟨rfl, rfl, rfl, rfl, rfl, rfl⟩

/-- C9: batching neither reorders nor blends — when the external encoder
treats each batch element independently, `embed` returns one vector per
input text in input order, and the i-th vector equals `embed_single` of the
i-th text alone. -/
theorem C9_batch_order (f : String → TokenData)
    (enc : List String → List TokenData) (henc : ∀ b, enc b = b.map f)
    (texts : List String) (bs : ℕ) (hbs : 0 < bs) :
    embed enc texts bs = texts.map (fun t => embed_single enc t) := by
  rw [embed_pointwise f enc henc texts bs hbs]
  refine List.map_congr_left fun t _ => ?_
  unfold embed_single
  rw [embed_pointwise f enc henc [t] 32 (by norm_num)]
  rfl

/-- Witness for C9: embedding two texts in one batch through the constant
encoder matches the per-text `embed_single` results. -/
theorem C9_batch_order_witness :
    (0 : ℕ) < 32 ∧
    embed constEnc ["a", "b"] 32 =
      ["a", "b"].map (fun t => embed_single constEnc t) :=
  ⟨by norm_num,
   C9_batch_order (fun _ => oneToken) constEnc (fun _ => rfl) ["a", "b"] 32
     (by norm_num)⟩

/-- C10: `search` has no side effect on the store — the method only reads
`self.index` and `self.metadata`, so the post state is the input state —
and every returned hit carries a copy of a stored metadata record with the
score attached, the stored metadata itself staying as it was. -/
theorem C10_frame (E : List String → Option (List Vec)) (st : IndexerState)
    (q : String) (k : ℕ) (hLen : st.rows.length = st.metadata.length) :
    (search_call E st q k).1 = st ∧
    (∀ hits, search E st q k = .ok hits →
      ∀ h ∈ hits, ∃ i : ℕ, st.metadata[i]? = some h.passage) := by
  refine ⟨rfl, ?_⟩
  intro hits hok h hmem
  unfold search at hok
  by_cases h0 : st.rows.length = 0
  · rw [if_pos h0] at hok
    injection hok with h2
    subst h2
    exact absurd hmem (List.not_mem_nil _)
  · rw [if_neg h0] at hok
    cases hE : E [q] with
    | none =>
      rw [hE] at hok
      exact absurd hok (by simp)
    | some qs =>
      rw [hE] at hok
      injection hok with h2
      subst h2
      unfold search_core at hmem
      rw [List.mem_map] at hmem
      obtain ⟨p, hp, rfl⟩ := hmem
      have hlt : p.2 < st.metadata.length :=
        hLen ▸ (mem_index_search _ _ _ p hp).1
      refine ⟨p.2, ?_⟩
      rw [List.getElem?_eq_getElem hlt]
      rw [List.getD_eq_getElem st.metadata _ hlt]

/-- Witness for C10: on a concrete synchronized one-row store, `search`
leaves the state untouched. -/
theorem C10_frame_witness :
    ([[1]] : List Vec).length = ([(⟨"t", []⟩ : Chunk)]).length ∧
    (search_call (pointwiseE (fun _ => ([1] : Vec)))
      { rows := [[1]], metadata := [⟨"t", []⟩] } "x" 3).1 =
      { rows := [[1]], metadata := [⟨"t", []⟩] } :=
  ⟨rfl, (C10_frame _ _ _ _ rfl).1⟩
